import Mathlib

/-
Verification development for the ExpApp personal-finance tracker.

The repository contains two near-duplicate implementations of the same
feature set:

* variant one (namespace `App1`): the pages/app split using
  `src/app/utils.ts` (round2, monthlyEquivalent, calcEmiMonthly,
  getLoanMonthlyEmi, sum), the Dashboard saveSnapshot keyed by
  (month, currency), the Loans page upsertLoan/removeLoan, and the
  storage module with defaultState merge-on-load;

* variant two (namespace `App2`): the single-file app using
  `src/utils.ts` (toMonthly, calculateEmi, plain sum), a month-keyed
  saveSnapshot that replaces in place, the storage module with
  emptyState merge-on-load, and the Supabase transaction sync.

JavaScript numbers are modelled as rationals; the one helper whose
behaviour on non-finite input matters (variant one's sum) takes values
of the type JsNum below, which can also hold NaN and the infinities.
Term counts (months) are modelled as integers so that the amortization
power is well defined.
-/

namespace ExpApp

/-- Model of a JavaScript number for inputs that may be non-finite. -/
inductive JsNum where
  | fin (q : ℚ)
  | nan
  | inf
  | negInf
deriving DecidableEq, Repr

/-- Model of JavaScript isFinite on a JsNum. -/
def JsNum.isFinite : JsNum → Bool
  | .fin _ => true
  | _ => false

/-- Value of the JavaScript expression (isFinite(b) ? b : 0). -/
def JsNum.finOr0 : JsNum → ℚ
  | .fin q => q
  | _ => 0

/-- Model of Number.EPSILON, the gap between 1 and the next double. -/
def jsEpsilon : ℚ := 1 / 2 ^ 52

/-- Model of JavaScript Math.round: round half toward positive infinity. -/
def mathRound (x : ℚ) : ℤ := ⌊x + 1 / 2⌋

namespace App1

/-- Source: src/app/utils.ts round2, Math.round((n + Number.EPSILON) * 100) / 100. -/
def round2 (n : ℚ) : ℚ := (mathRound ((n + jsEpsilon) * 100) : ℚ) / 100

/-- Payment cadence set of the app/types.ts variant. -/
inductive PaymentFrequency where
  | monthly
  | weekly
  | fortnightly
  | yearly
deriving DecidableEq, Repr

/-- Source: src/app/utils.ts monthlyEquivalent. Non-finite amounts map to 0,
otherwise the switch on the frequency applies the factor table. -/
def monthlyEquivalent : JsNum → PaymentFrequency → ℚ
  | .fin a, .weekly => a * 52 / 12
  | .fin a, .fortnightly => a * 26 / 12
  | .fin a, .yearly => a / 12
  | .fin a, .monthly => a
  | _, _ => 0

/-- Source: src/app/utils.ts calcEmiMonthly. The first guard is the JavaScript
falsy test (!P or !annualRate or !n), true when an argument is absent or zero;
then the sign guards, the monthly rate, the dead zero-rate branch, and the
amortization formula rounded to 2 decimals. -/
def calcEmiMonthly (P annualRate : Option ℚ) (n : Option ℤ) : Option ℚ :=
  if P.getD 0 = 0 ∨ annualRate.getD 0 = 0 ∨ n.getD 0 = 0 then none
  else
    let Pv := P.getD 0
    let nv := n.getD 0
    if Pv ≤ 0 ∨ nv ≤ 0 then none
    else
      let r := annualRate.getD 0 / 100 / 12
      if r = 0 then some (round2 (Pv / (nv : ℚ)))
      else
        let pw := (1 + r) ^ nv.toNat
        some (round2 (Pv * r * pw / (pw - 1)))

/-- Currency set of the app/types.ts variant. -/
inductive Currency where
  | GBP
  | EUR
  | USD
  | INR
deriving DecidableEq, Repr

/-- Source: src/app/types.ts Loan. -/
structure Loan where
  id : String
  name : String
  type : String
  lender : Option String
  currency : Currency
  principal : Option ℚ
  annualRate : Option ℚ
  termMonths : Option ℤ
  emi : Option ℚ
  paymentFrequency : PaymentFrequency
  outstandingBalance : ℚ
  nextDueDate : Option String
  startDate : Option String
  notes : Option String
  autoCalcEmi : Bool
deriving DecidableEq, Repr

/-- Source: src/app/utils.ts getLoanMonthlyEmi: pick the auto-calculated EMI
(with null coalesced to 0) or the manual EMI (with absence coalesced to 0),
then cadence-normalize and round. -/
def getLoanMonthlyEmi (loan : Loan) : ℚ :=
  let base := if loan.autoCalcEmi
    then (calcEmiMonthly loan.principal loan.annualRate loan.termMonths).getD 0
    else loan.emi.getD 0
  round2 (monthlyEquivalent (.fin base) loan.paymentFrequency)

/-- Source: src/app/utils.ts sum: fold adding each addend coerced by the
isFinite test, then round the final result once. -/
def sum (nums : List JsNum) : ℚ :=
  round2 (nums.foldl (fun a b => a + b.finOr0) 0)

/-- Application of the sum helper to a list of finite values. -/
def sumQ (nums : List ℚ) : ℚ := sum (nums.map JsNum.fin)

/-- Source: src/app/types.ts Asset. -/
structure Asset where
  id : String
  name : String
  category : String
  value : ℚ
  owner : String
  valuationDate : String
  currency : Currency
  notes : Option String
deriving DecidableEq, Repr

/-- Source: src/app/types.ts Liability. -/
structure Liability where
  id : String
  name : String
  category : String
  outstanding : ℚ
  annualRate : Option ℚ
  dueDate : Option String
  currency : Currency
  notes : Option String
deriving DecidableEq, Repr

/-- Source: src/app/types.ts Snapshot, the currency-scoped variant. -/
structure Snapshot where
  id : String
  month : String
  currency : Currency
  assetsTotal : ℚ
  liabilitiesTotal : ℚ
  netWorth : ℚ
  createdAt : String
deriving DecidableEq, Repr

/-- Source: src/app/types.ts AppState. -/
structure AppState where
  currency : Currency
  loans : List Loan
  assets : List Asset
  liabilities : List Liability
  snapshots : List Snapshot
deriving DecidableEq, Repr

/-- Source: Dashboard assetsTotal, the sum of asset values filtered to the
active display currency. -/
def assetsTotal (s : AppState) : ℚ :=
  sumQ (((s.assets.filter (fun a => a.currency = s.currency)).map (fun a => a.value)))

/-- Source: Dashboard liabilitiesTotal, the sum of non-loan liability
outstanding amounts and loan outstanding balances, currency-filtered. -/
def liabilitiesTotal (s : AppState) : ℚ :=
  let baseLiabs :=
    sumQ ((s.liabilities.filter (fun l => l.currency = s.currency)).map (fun l => l.outstanding))
  let loansOutstanding :=
    sumQ ((s.loans.filter (fun l => l.currency = s.currency)).map (fun l => l.outstandingBalance))
  sumQ [baseLiabs, loansOutstanding]

/-- Source: Dashboard netWorth, computed as sum([assetsTotal, -liabilitiesTotal]). -/
def netWorth (s : AppState) : ℚ := sumQ [assetsTotal s, -liabilitiesTotal s]

/-- Source: Dashboard monthlyEmiTotal, the sum of each currency-matched loan's
effective monthly EMI. -/
def monthlyEmiTotal (s : AppState) : ℚ :=
  sumQ ((s.loans.filter (fun l => l.currency = s.currency)).map getLoanMonthlyEmi)

/-- Source: Dashboard saveSnapshot. The fresh identity, the month key derived
from the current date, and the creation timestamp are external inputs; the
snapshot carries the aggregator totals at capture time, existing snapshots
with the same (month, currency) key are filtered out, and the new snapshot is
prepended. -/
def saveSnapshot (s : AppState) (newId month createdAt : String) : AppState :=
  let snap : Snapshot :=
    { id := newId
      month := month
      currency := s.currency
      assetsTotal := assetsTotal s
      liabilitiesTotal := liabilitiesTotal s
      netWorth := netWorth s
      createdAt := createdAt }
  let filtered := s.snapshots.filter (fun t => ¬(t.month = snap.month ∧ t.currency = snap.currency))
  { s with snapshots := snap :: filtered }

/-- Source: Loans page upsertLoan: replace the loan with a matching identity
in place when one exists, otherwise prepend. -/
def upsertLoan (loans : List Loan) (next : Loan) : List Loan :=
  if loans.any (fun l => l.id = next.id)
  then loans.map (fun l => if l.id = next.id then next else l)
  else next :: loans

/-- Source: Loans page removeLoan: keep the loans whose identity differs. -/
def removeLoan (loans : List Loan) (id : String) : List Loan :=
  loans.filter (fun l => l.id ≠ id)

/-- Source: src/app/storage.ts defaultState. -/
def defaultState : AppState :=
  { currency := .GBP
    loans := []
    assets := []
    liabilities := []
    snapshots := [] }

/-- Parsed shape of a stored blob: each top-level AppState key may be absent. -/
structure StoredAppState where
  currency : Option Currency := none
  loans : Option (List Loan) := none
  assets : Option (List Asset) := none
  liabilities : Option (List Liability) := none
  snapshots : Option (List Snapshot) := none
deriving DecidableEq, Repr

/-- State of the local storage slot: missing key, unparseable content, or a
parsed object with some subset of the AppState keys. -/
inductive StoredBlob where
  | absent
  | malformed
  | parsed (data : StoredAppState)
deriving DecidableEq, Repr

/-- Source: src/app/storage.ts loadState. A missing key or a JSON.parse
failure falls back to defaultState; otherwise the spread merge puts the parsed
fields over the defaults. -/
def loadState : StoredBlob → AppState
  | .absent => defaultState
  | .malformed => defaultState
  | .parsed d =>
    { currency := d.currency.getD defaultState.currency
      loans := d.loans.getD defaultState.loans
      assets := d.assets.getD defaultState.assets
      liabilities := d.liabilities.getD defaultState.liabilities
      snapshots := d.snapshots.getD defaultState.snapshots }

end App1

namespace App2

/-- Currency set of the src/types.ts variant. -/
inductive CurrencyCode where
  | GBP
  | USD
  | EUR
deriving DecidableEq, Repr

/-- Budget cadence set of the src/types.ts variant. -/
inductive Frequency where
  | monthly
  | weekly
  | annual
deriving DecidableEq, Repr

/-- Source: src/types.ts BudgetItem. -/
structure BudgetItem where
  id : String
  category : String
  name : String
  amount : ℚ
  frequency : Frequency
deriving DecidableEq, Repr

/-- Source: src/types.ts BudgetData. -/
structure BudgetData where
  income : List BudgetItem
  expenses : List BudgetItem
deriving DecidableEq, Repr

/-- Source: src/types.ts Loan; its paymentFrequency is fixed to "monthly". -/
structure Loan where
  id : String
  name : String
  loanType : String
  lender : String
  startDate : String
  principal : ℚ
  annualRate : ℚ
  termMonths : ℤ
  emi : Option ℚ
  nextDueDate : String
  outstandingBalance : ℚ
  currency : CurrencyCode
  notes : Option String
  autoCalculate : Bool
deriving DecidableEq, Repr

/-- Source: src/types.ts Asset. -/
structure Asset where
  id : String
  name : String
  category : String
  value : ℚ
  owner : String
  valuationDate : String
  currency : CurrencyCode
  notes : Option String
deriving DecidableEq, Repr

/-- Source: src/types.ts Liability. -/
structure Liability where
  id : String
  name : String
  category : String
  outstanding : ℚ
  annualRate : Option ℚ
  dueDate : Option String
  currency : CurrencyCode
  notes : Option String
deriving DecidableEq, Repr

/-- Source: src/types.ts Snapshot, the month-keyed variant without currency. -/
structure Snapshot where
  id : String
  month : String
  assetsTotal : ℚ
  liabilitiesTotal : ℚ
  netWorth : ℚ
  createdAt : String
deriving DecidableEq, Repr

/-- Source: src/types.ts ExpenseTransaction. -/
structure ExpenseTransaction where
  id : String
  date : String
  category : String
  description : String
  amount : ℚ
deriving DecidableEq, Repr

/-- Source: src/App.tsx AppState (the storage-side shape). -/
structure AppState where
  loans : List Loan
  assets : List Asset
  liabilities : List Liability
  budget : BudgetData
  expenseTransactions : List ExpenseTransaction
  snapshots : List Snapshot
deriving DecidableEq, Repr

/-- Source: src/utils.ts toMonthly: monthly is the identity, weekly scales by
52/12, and everything else (annual) divides by 12. -/
def toMonthly (item : BudgetItem) : ℚ :=
  if item.frequency = .monthly then item.amount
  else if item.frequency = .weekly then item.amount * 52 / 12
  else item.amount / 12

/-- Source: src/utils.ts calculateEmi: zero is returned when principal, the
derived monthly rate, or the term is not positive; otherwise the amortization
formula, with no rounding. -/
def calculateEmi (loan : Loan) : ℚ :=
  let principal := loan.principal
  let monthlyRate := loan.annualRate / 100 / 12
  let n := loan.termMonths
  if principal ≤ 0 ∨ monthlyRate ≤ 0 ∨ n ≤ 0 then 0
  else
    let factor := (1 + monthlyRate) ^ n.toNat
    principal * monthlyRate * factor / (factor - 1)

/-- Source: src/utils.ts sum: a plain left fold with no finiteness coercion
and no rounding. -/
def sum (values : List ℚ) : ℚ := values.foldl (fun a b => a + b) 0

/-- Source: src/App.tsx loansMonthlyEmi: each loan contributes its calculated
EMI when auto-calculation is on, otherwise the raw manual EMI value. -/
def loansMonthlyEmi (loans : List Loan) : ℚ :=
  sum (loans.map (fun loan => if loan.autoCalculate then calculateEmi loan else loan.emi.getD 0))

/-- Source: src/App.tsx assetsTotal. -/
def assetsTotal (assets : List Asset) : ℚ := sum (assets.map (fun a => a.value))

/-- Source: src/App.tsx liabilitiesTotal. -/
def liabilitiesTotal (liabilities : List Liability) (loans : List Loan) : ℚ :=
  sum (liabilities.map (fun item => item.outstanding)) +
    sum (loans.map (fun loan => loan.outstandingBalance))

/-- Source: src/App.tsx netWorth. -/
def netWorth (assets : List Asset) (liabilities : List Liability) (loans : List Loan) : ℚ :=
  assetsTotal assets - liabilitiesTotal liabilities loans

/-- Source: src/App.tsx budgetMonthlyIncome. -/
def budgetMonthlyIncome (budget : BudgetData) : ℚ := sum (budget.income.map toMonthly)

/-- Source: src/App.tsx budgetMonthlyExpense, inclusive of the loan EMI total. -/
def budgetMonthlyExpense (budget : BudgetData) (loans : List Loan) : ℚ :=
  sum (budget.expenses.map toMonthly) + loansMonthlyEmi loans

/-- Source: src/App.tsx defaultSnapshot; identity and timestamp are external. -/
def defaultSnapshot (newId month : String) (assetsTotal liabilitiesTotal : ℚ)
    (createdAt : String) : Snapshot :=
  { id := newId
    month := month
    assetsTotal := assetsTotal
    liabilitiesTotal := liabilitiesTotal
    netWorth := assetsTotal - liabilitiesTotal
    createdAt := createdAt }

/-- Source: src/App.tsx saveSnapshot list update: when a snapshot for the
month exists, every entry for that month is replaced in place; otherwise the
new snapshot is prepended. -/
def saveSnapshot (snapshots : List Snapshot) (snapshot : Snapshot) : List Snapshot :=
  if snapshots.any (fun item => item.month = snapshot.month)
  then snapshots.map (fun item => if item.month = snapshot.month then snapshot else item)
  else snapshot :: snapshots

/-- Source: src/storage.ts emptyState. -/
def emptyState : AppState :=
  { loans := []
    assets := []
    liabilities := []
    budget := { income := [], expenses := [] }
    expenseTransactions := []
    snapshots := [] }

/-- Parsed shape of a stored blob: each top-level AppState key may be absent. -/
structure StoredAppState where
  loans : Option (List Loan) := none
  assets : Option (List Asset) := none
  liabilities : Option (List Liability) := none
  budget : Option BudgetData := none
  expenseTransactions : Option (List ExpenseTransaction) := none
  snapshots : Option (List Snapshot) := none
deriving DecidableEq, Repr

/-- State of the local storage slot: missing key, unparseable content, or a
parsed object with some subset of the AppState keys. -/
inductive StoredBlob where
  | absent
  | malformed
  | parsed (data : StoredAppState)
deriving DecidableEq, Repr

/-- Source: src/storage.ts loadState. A missing key or a JSON.parse failure
falls back to emptyState; otherwise the spread merge puts the parsed fields
over the defaults. -/
def loadState : StoredBlob → AppState
  | .absent => emptyState
  | .malformed => emptyState
  | .parsed d =>
    { loans := d.loans.getD emptyState.loans
      assets := d.assets.getD emptyState.assets
      liabilities := d.liabilities.getD emptyState.liabilities
      budget := d.budget.getD emptyState.budget
      expenseTransactions := d.expenseTransactions.getD emptyState.expenseTransactions
      snapshots := d.snapshots.getD emptyState.snapshots }

/-- Remote operations on the expense_transactions table issued for the active
authenticated identity. -/
inductive RemoteOp where
  | deleteAllTransactions
  | upsertTransactions (payload : List ExpenseTransaction)
  | deleteTransactionsNotIn (ids : List String)
deriving DecidableEq, Repr

/-- Source: src/App.tsx saveTransactionsToSupabase, as the list of remote
operations it issues for the active identity (the function returns without
issuing anything when no identity is present): a delete of all of the
identity's rows when the local set is empty, otherwise an upsert of the full
set followed by a delete of the rows whose identity is not in the local set. -/
def saveTransactionsToSupabase (items : List ExpenseTransaction) : List RemoteOp :=
  if items.length = 0 then [.deleteAllTransactions]
  else
    [.upsertTransactions items,
     .deleteTransactionsNotIn (items.map (fun tx => tx.id))]

/-- Remote-store semantics of upserting one row keyed on the id column:
replace every row with the same identity, or append when none matches. -/
def upsertOne (rows : List ExpenseTransaction) (tx : ExpenseTransaction) :
    List ExpenseTransaction :=
  if rows.any (fun r => r.id = tx.id)
  then rows.map (fun r => if r.id = tx.id then tx else r)
  else rows ++ [tx]

/-- Remote-store semantics of one operation on the identity's rows. -/
def applyOp (rows : List ExpenseTransaction) : RemoteOp → List ExpenseTransaction
  | .deleteAllTransactions => []
  | .upsertTransactions payload => payload.foldl upsertOne rows
  | .deleteTransactionsNotIn ids => rows.filter (fun r => decide (r.id ∈ ids))

/-- Remote-store semantics of a sequence of operations. -/
def applyOps (rows : List ExpenseTransaction) (ops : List RemoteOp) : List ExpenseTransaction :=
  ops.foldl applyOp rows

end App2

/-- Modelled from the spec: the closed-form cadence factor table of section
4.1, for the four-cadence loan variant. -/
def specCadenceFactor : App1.PaymentFrequency → ℚ
  | .monthly => 1
  | .weekly => 52 / 12
  | .fortnightly => 26 / 12
  | .yearly => 1 / 12

/-- Modelled from the spec: the cadence factor table of section 4.1 restricted
to the three-cadence budget variant, with annual as the yearly alias. -/
def specCadenceFactorBudget : App2.Frequency → ℚ
  | .monthly => 1
  | .weekly => 52 / 12
  | .annual => 1 / 12

end ExpApp

namespace ExpApp

namespace App1

theorem sumQ_eq_round2_foldl (nums : List ℚ) :
    sumQ nums = round2 (nums.foldl (fun a b => a + b) 0) := by
  unfold sumQ sum
  rw [List.foldl_map]
  simp [JsNum.finOr0]

theorem foldl_add_eq_sum (l : List ℚ) (a : ℚ) :
    l.foldl (fun x y => x + y) a = a + l.sum := by
  induction l generalizing a with
  | nil => simp
  | cons b t ih => simp [List.foldl_cons, ih, add_assoc]

/-- The rounding helper fixes every integer multiple of one hundredth. -/
theorem round2_intCast_div_100 (k : ℤ) : round2 ((k : ℚ) / 100) = (k : ℚ) / 100 := by
  unfold round2 mathRound
  have h100 : ((k : ℚ) / 100 + jsEpsilon) * 100 + 1 / 2 = (k : ℚ) + (100 * jsEpsilon + 1 / 2) := by
    field_simp
    ring
  rw [h100]
  have hfloor : ⌊(k : ℚ) + (100 * jsEpsilon + 1 / 2)⌋ = k := by
    rw [Int.floor_eq_iff]
    constructor
    · have : (0 : ℚ) ≤ 100 * jsEpsilon + 1 / 2 := by
        unfold jsEpsilon
        norm_num
      linarith
    · have : 100 * jsEpsilon + 1 / 2 < 1 := by
        unfold jsEpsilon
        norm_num
      linarith
  rw [hfloor]

/-- Every output of the rounding helper is an integer multiple of one hundredth. -/
theorem round2_exists_int (x : ℚ) : ∃ k : ℤ, round2 x = (k : ℚ) / 100 := by
  exact ⟨mathRound ((x + jsEpsilon) * 100), rfl⟩

theorem round2_idem (x : ℚ) : round2 (round2 x) = round2 x := by
  obtain ⟨k, hk⟩ := round2_exists_int x
  rw [hk, round2_intCast_div_100]

theorem round2_zero : round2 0 = 0 := by
  norm_num [round2, mathRound, jsEpsilon]

theorem sumQ_exists_int (nums : List ℚ) : ∃ k : ℤ, sumQ nums = (k : ℚ) / 100 := by
  rw [sumQ_eq_round2_foldl]
  exact round2_exists_int _

/-- The rounding helper fixes the difference of two hundredth multiples. -/
theorem round2_sub_of_hundredths (x y : ℚ) (hx : ∃ k : ℤ, x = (k : ℚ) / 100)
    (hy : ∃ k : ℤ, y = (k : ℚ) / 100) : round2 (x - y) = x - y := by
  obtain ⟨a, ha⟩ := hx
  obtain ⟨b, hb⟩ := hy
  subst ha hb
  have h : (a : ℚ) / 100 - (b : ℚ) / 100 = ((a - b : ℤ) : ℚ) / 100 := by
    push_cast
    ring
  rw [h, round2_intCast_div_100]

theorem calcEmiMonthly_fixed (P annualRate : Option ℚ) (n : Option ℤ) (q : ℚ)
    (h : calcEmiMonthly P annualRate n = some q) : round2 q = q := by
  unfold calcEmiMonthly at h
  dsimp only at h
  split_ifs at h with h1 h2 h3
  · rw [Option.some_inj] at h
    rw [← h, round2_idem]
  · rw [Option.some_inj] at h
    rw [← h, round2_idem]

end App1

/-- C9: the 2-decimal rounding helper is idempotent, round2(round2(x)) =
round2(x) for every number x, and the epsilon-adjusted rule resolves the exact
half 0.005 away from zero to 0.01, so halves are stable under re-rounding. -/
theorem C9_round2_idempotent :
    (∀ x : ℚ, App1.round2 (App1.round2 x) = App1.round2 x) ∧
    App1.round2 (1 / 200) = 1 / 100 := by
  refine ⟨App1.round2_idem, ?_⟩
  norm_num [App1.round2, mathRound, jsEpsilon]

/-- C6: both cadence normalizers return exactly the factor-table value for
every finite amount and every cadence tag of their closed sets: monthly is the
identity, weekly scales by 52/12, fortnightly by 26/12, and yearly (alias
annual) divides by 12. -/
theorem C6_cadence_table :
    (∀ (a : ℚ) (f : App1.PaymentFrequency),
      App1.monthlyEquivalent (.fin a) f = a * specCadenceFactor f) ∧
    (∀ item : App2.BudgetItem,
      App2.toMonthly item = item.amount * specCadenceFactorBudget item.frequency) := by
  constructor
  · intro a f
    cases f <;> simp [App1.monthlyEquivalent, specCadenceFactor] <;> ring
  · intro item
    rcases item with ⟨i, c, nm, amount, freq⟩
    cases freq <;> simp [App2.toMonthly, specCadenceFactorBudget] <;> ring

/-- C5: in both variants the derived net worth equals the derived assets total
minus the derived liabilities total, for every combination of assets,
liabilities, and loans in the state. -/
theorem C5_netWorth_decomposition :
    (∀ s : App1.AppState, App1.netWorth s = App1.assetsTotal s - App1.liabilitiesTotal s) ∧
    (∀ (assets : List App2.Asset) (liabilities : List App2.Liability) (loans : List App2.Loan),
      App2.netWorth assets liabilities loans =
        App2.assetsTotal assets - App2.liabilitiesTotal liabilities loans) := by
  constructor
  · intro s
    unfold App1.netWorth
    rw [App1.sumQ_eq_round2_foldl]
    have h : List.foldl (fun a b => a + b) 0 [App1.assetsTotal s, -App1.liabilitiesTotal s]
        = App1.assetsTotal s - App1.liabilitiesTotal s := by
      simp [List.foldl]
      ring
    rw [h]
    exact App1.round2_sub_of_hundredths _ _ (App1.sumQ_exists_int _) (App1.sumQ_exists_int _)
  · intro assets liabilities loans
    rfl

/-- C4 counterexample: the summation helper of the second variant
(src/utils.ts sum), used by that variant's aggregates, does not round its
result: on the list containing 1/3 it returns 1/3, while the claimed behaviour
is round2(1/3) = 33/100. -/
theorem C4_counterexample :
    App2.sum [(1 : ℚ) / 3] = 1 / 3 ∧
    App1.round2 ((1 : ℚ) / 3) = 33 / 100 ∧
    ((1 : ℚ) / 3) ≠ 33 / 100 := by
  refine ⟨by simp [App2.sum], ?_, by norm_num⟩
  norm_num [App1.round2, mathRound, jsEpsilon]

/-- C4 (amended): variant one's summation helper returns the sum with each
non-finite addend replaced by 0 and rounding to 2 decimals applied exactly
once to the final result; variant two's summation helper is a plain fold that
returns the unrounded sum of the raw addends. -/
theorem C4_sum_policy :
    (∀ nums : List JsNum, App1.sum nums = App1.round2 ((nums.map JsNum.finOr0).sum)) ∧
    (∀ values : List ℚ, App2.sum values = values.sum) := by
  constructor
  · intro nums
    unfold App1.sum
    have h1 : nums.foldl (fun a b => a + b.finOr0) 0
        = (nums.map JsNum.finOr0).foldl (fun a b => a + b) 0 :=
      (List.foldl_map _ _ _ _).symm
    rw [h1, App1.foldl_add_eq_sum, zero_add]
  · intro values
    unfold App2.sum
    rw [App1.foldl_add_eq_sum, zero_add]

/-- C2: neither EMI calculator returns the straight-line installment for a
zero annual rate. Variant one's falsy guard rejects rate 0 before its
zero-rate branch can run and returns null, and variant two's sign guard
returns 0, while the claimed value is round2(P/n), here 100 for P = 1200 and
n = 12; the unreachable zero-rate branch in variant one shows the claim is
the intended behaviour. -/
theorem C2_zero_rate_emi :
    App1.calcEmiMonthly (some 1200) (some 0) (some 12) = none ∧
    App2.calculateEmi { id := "loan-1", name := "", loanType := "", lender := "",
                        startDate := "", principal := 1200, annualRate := 0,
                        termMonths := 12, emi := none, nextDueDate := "",
                        outstandingBalance := 0, currency := .GBP, notes := none,
                        autoCalculate := true } = 0 ∧
    App1.round2 (1200 / 12) = 100 := by
  refine ⟨?_, ?_, ?_⟩
  · simp [App1.calcEmiMonthly]
  · simp [App2.calculateEmi]
  · norm_num [App1.round2, mathRound, jsEpsilon]

/-- C7: loading the persisted state never fails: an absent or malformed blob
loads as the hard-coded empty state, a parsed blob is shallow-merged over the
defaults so every top-level field is present, and a blob holding only one
asset loads as a full state with that asset preserved and every other
collection empty; both storage variants behave this way. -/
theorem C7_loadState_merge :
    App2.loadState .absent = App2.emptyState ∧
    App2.loadState .malformed = App2.emptyState ∧
    (∀ d : App2.StoredAppState, App2.loadState (.parsed d) =
      { loans := d.loans.getD App2.emptyState.loans
        assets := d.assets.getD App2.emptyState.assets
        liabilities := d.liabilities.getD App2.emptyState.liabilities
        budget := d.budget.getD App2.emptyState.budget
        expenseTransactions := d.expenseTransactions.getD App2.emptyState.expenseTransactions
        snapshots := d.snapshots.getD App2.emptyState.snapshots }) ∧
    App2.loadState (.parsed { assets := some [{ id := "", name := "", category := "",
                                                value := 100, owner := "", valuationDate := "",
                                                currency := .GBP, notes := none }] }) =
      { App2.emptyState with assets := [{ id := "", name := "", category := "",
                                          value := 100, owner := "", valuationDate := "",
                                          currency := .GBP, notes := none }] } ∧
    App1.loadState .absent = App1.defaultState ∧
    App1.loadState .malformed = App1.defaultState ∧
    (∀ d : App1.StoredAppState, App1.loadState (.parsed d) =
      { currency := d.currency.getD App1.defaultState.currency
        loans := d.loans.getD App1.defaultState.loans
        assets := d.assets.getD App1.defaultState.assets
        liabilities := d.liabilities.getD App1.defaultState.liabilities
        snapshots := d.snapshots.getD App1.defaultState.snapshots }) := by
  exact ⟨rfl, rfl, fun d => rfl, rfl, rfl, rfl, fun d => rfl⟩

namespace App1

theorem upsert_mem_cond (loans : List Loan) (next : Loan) :
    loans.any (fun l => l.id = next.id) = true ↔ next.id ∈ loans.map (fun l => l.id) := by
  rw [List.any_eq_true]
  simp only [List.mem_map, decide_eq_true_eq]

/-- Replacing in place a loan whose identity already occurs leaves the list of
identities unchanged. -/
theorem upsertLoan_ids_of_mem (loans : List Loan) (next : Loan)
    (h : next.id ∈ loans.map (fun l => l.id)) :
    (upsertLoan loans next).map (fun l => l.id) = loans.map (fun l => l.id) := by
  unfold upsertLoan
  rw [if_pos ((upsert_mem_cond loans next).mpr h)]
  rw [List.map_map]
  apply List.map_congr_left
  intro l _
  by_cases hc : l.id = next.id
  · simp [Function.comp, hc]
  · simp [Function.comp, hc]

end App1

/-- C10: when all loan identities are distinct, upsertLoan preserves
distinctness; a loan with a fresh identity is prepended, a loan whose
identity already occurs replaces that entry in place (the result is the
pointwise replacement map, so the length and the order of the other entries
are unchanged and every other entry is kept); removeLoan also preserves
distinctness. -/
theorem C10_loan_identity_unique (loans : List App1.Loan) (next : App1.Loan) (lid : String)
    (h : (loans.map (fun l => l.id)).Nodup) :
    ((App1.upsertLoan loans next).map (fun l => l.id)).Nodup ∧
    ((App1.removeLoan loans lid).map (fun l => l.id)).Nodup ∧
    (next.id ∉ loans.map (fun l => l.id) → App1.upsertLoan loans next = next :: loans) ∧
    (next.id ∈ loans.map (fun l => l.id) →
      App1.upsertLoan loans next = loans.map (fun l => if l.id = next.id then next else l) ∧
      (App1.upsertLoan loans next).length = loans.length ∧
      ∀ l ∈ loans, l.id ≠ next.id → l ∈ App1.upsertLoan loans next) := by
  have hprepend : next.id ∉ loans.map (fun l => l.id) →
      App1.upsertLoan loans next = next :: loans := by
    intro hnm
    unfold App1.upsertLoan
    have hcond : ¬(loans.any (fun l => l.id = next.id) = true) :=
      fun hany => hnm ((App1.upsert_mem_cond loans next).mp hany)
    rw [if_neg hcond]
  have hreplace : next.id ∈ loans.map (fun l => l.id) →
      App1.upsertLoan loans next = loans.map (fun l => if l.id = next.id then next else l) := by
    intro hm
    unfold App1.upsertLoan
    rw [if_pos ((App1.upsert_mem_cond loans next).mpr hm)]
  refine ⟨?_, ?_, hprepend, ?_⟩
  · by_cases hm : next.id ∈ loans.map (fun l => l.id)
    · rw [App1.upsertLoan_ids_of_mem loans next hm]
      exact h
    · rw [hprepend hm, List.map_cons]
      exact List.nodup_cons.mpr ⟨hm, h⟩
  · have hsub : List.Sublist (App1.removeLoan loans lid) loans := List.filter_sublist loans
    exact h.sublist (hsub.map _)
  · intro hm
    refine ⟨hreplace hm, ?_, ?_⟩
    · rw [hreplace hm, List.length_map]
    · intro l hl hne
      rw [hreplace hm]
      exact List.mem_map.mpr ⟨l, hl, by rw [if_neg hne]⟩

namespace App2

/-- In a snapshot list whose month keys are distinct, exactly one entry
carries any month key that occurs. -/
theorem countP_month_eq_one (snaps : List Snapshot) (m : String)
    (hnd : (snaps.map (fun t => t.month)).Nodup)
    (hmem : m ∈ snaps.map (fun t => t.month)) :
    snaps.countP (fun t => t.month = m) = 1 := by
  induction snaps with
  | nil => simp at hmem
  | cons t rest ih =>
    rw [List.map_cons, List.nodup_cons] at hnd
    obtain ⟨hnotin, hnd2⟩ := hnd
    rw [List.map_cons, List.mem_cons] at hmem
    by_cases hm : t.month = m
    · rw [List.countP_cons_of_pos _ _ (by simp [hm])]
      have hzero : rest.countP (fun t2 => t2.month = m) = 0 := by
        rw [List.countP_eq_zero]
        intro a ha hpa
        simp only [decide_eq_true_eq] at hpa
        apply hnotin
        rw [hm, ← hpa]
        exact List.mem_map_of_mem _ ha
      rw [hzero]
    · rw [List.countP_cons_of_neg _ _ (by simp [hm])]
      apply ih hnd2
      rcases hmem with hmem | hmem
      · exact absurd hmem.symm hm
      · exact hmem

end App2

/-- C1 counterexample: in the month-keyed variant (src/App.tsx saveSnapshot),
capturing over a list that already holds a snapshot for the month does not
remove it and prepend: the new snapshot lands in the old entry's position, so
the head is not the new snapshot; and when the prior list holds two entries
for the month, both are replaced, leaving two snapshots for the captured key
rather than exactly one. -/
theorem C1_counterexample :
    App2.saveSnapshot
        [⟨"a", "2025-09", 1, 0, 1, "t0"⟩, ⟨"b", "2025-10", 2, 0, 2, "t1"⟩]
        ⟨"c", "2025-10", 5, 1, 4, "t3"⟩ =
      [⟨"a", "2025-09", 1, 0, 1, "t0"⟩, ⟨"c", "2025-10", 5, 1, 4, "t3"⟩] ∧
    (App2.saveSnapshot
        [⟨"a", "2025-09", 1, 0, 1, "t0"⟩, ⟨"b", "2025-10", 2, 0, 2, "t1"⟩]
        ⟨"c", "2025-10", 5, 1, 4, "t3"⟩).head? ≠
      some ⟨"c", "2025-10", 5, 1, 4, "t3"⟩ ∧
    (App2.saveSnapshot
        [⟨"b", "2025-10", 2, 0, 2, "t1"⟩, ⟨"b2", "2025-10", 3, 0, 3, "t2"⟩]
        ⟨"c", "2025-10", 5, 1, 4, "t3"⟩).countP (fun t => t.month = "2025-10") = 2 := by
  refine ⟨?_, ?_, ?_⟩ <;> decide

/-- C1 (amended): in the (month, currency)-keyed variant (Dashboard
saveSnapshot) the claim holds as stated: after capture the list holds exactly
one snapshot for the captured key, its head is the new snapshot carrying the
aggregator totals at capture time, and every non-matching prior snapshot is
kept, for every prior list. In the month-keyed variant (src/App.tsx
saveSnapshot) a capture for a fresh month prepends, while a capture for an
existing month replaces each matching entry in place, so the list holds
exactly one snapshot for the captured month only when the prior month keys
were distinct. -/
theorem C1_snapshot_dedup (s : App1.AppState) (newId month createdAt : String)
    (snaps : List App2.Snapshot) (snap : App2.Snapshot) :
    ((App1.saveSnapshot s newId month createdAt).snapshots.countP
        (fun t => t.month = month ∧ t.currency = s.currency) = 1) ∧
    ((App1.saveSnapshot s newId month createdAt).snapshots.head? =
      some { id := newId, month := month, currency := s.currency,
             assetsTotal := App1.assetsTotal s, liabilitiesTotal := App1.liabilitiesTotal s,
             netWorth := App1.netWorth s, createdAt := createdAt }) ∧
    (∀ t ∈ s.snapshots, ¬(t.month = month ∧ t.currency = s.currency) →
      t ∈ (App1.saveSnapshot s newId month createdAt).snapshots) ∧
    (snap.month ∉ snaps.map (fun t => t.month) →
      App2.saveSnapshot snaps snap = snap :: snaps) ∧
    (snap.month ∈ snaps.map (fun t => t.month) →
      App2.saveSnapshot snaps snap =
        snaps.map (fun t => if t.month = snap.month then snap else t)) ∧
    ((snaps.map (fun t => t.month)).Nodup →
      (App2.saveSnapshot snaps snap).countP (fun t => t.month = snap.month) = 1) := by
  have hsnapshots : (App1.saveSnapshot s newId month createdAt).snapshots =
      { id := newId, month := month, currency := s.currency,
        assetsTotal := App1.assetsTotal s, liabilitiesTotal := App1.liabilitiesTotal s,
        netWorth := App1.netWorth s, createdAt := createdAt } ::
      s.snapshots.filter (fun t => ¬(t.month = month ∧ t.currency = s.currency)) := rfl
  have hprepend : snap.month ∉ snaps.map (fun t => t.month) →
      App2.saveSnapshot snaps snap = snap :: snaps := by
    intro hnm
    unfold App2.saveSnapshot
    have hcond : ¬(snaps.any (fun item => item.month = snap.month) = true) := by
      intro hany
      rw [List.any_eq_true] at hany
      obtain ⟨t2, ht2, he⟩ := hany
      simp only [decide_eq_true_eq] at he
      exact hnm (he ▸ List.mem_map_of_mem _ ht2)
    rw [if_neg hcond]
  have hreplace : snap.month ∈ snaps.map (fun t => t.month) →
      App2.saveSnapshot snaps snap =
        snaps.map (fun t => if t.month = snap.month then snap else t) := by
    intro hm
    unfold App2.saveSnapshot
    have hcond : snaps.any (fun item => item.month = snap.month) = true := by
      rw [List.any_eq_true]
      obtain ⟨t2, ht2, he⟩ := List.mem_map.mp hm
      exact ⟨t2, ht2, by simp [he]⟩
    rw [if_pos hcond]
  refine ⟨?_, ?_, ?_, hprepend, hreplace, ?_⟩
  · rw [hsnapshots]
    rw [List.countP_cons_of_pos _ _ (by simp)]
    have hz : (s.snapshots.filter
        (fun t => ¬(t.month = month ∧ t.currency = s.currency))).countP
        (fun t => t.month = month ∧ t.currency = s.currency) = 0 := by
      rw [List.countP_eq_zero]
      intro a ha hpa
      rw [List.mem_filter] at ha
      simp only [decide_eq_true_eq] at ha hpa
      exact ha.2 hpa
    rw [hz]
  · rw [hsnapshots]
    rfl
  · intro t ht hnm
    rw [hsnapshots]
    apply List.mem_cons_of_mem
    rw [List.mem_filter]
    refine ⟨ht, ?_⟩
    simp only [decide_eq_true_eq]
    exact hnm
  · intro hnd
    by_cases hm : snap.month ∈ snaps.map (fun t => t.month)
    · rw [hreplace hm, List.countP_map]
      have hcomp : (fun t : App2.Snapshot => decide (t.month = snap.month)) ∘
          (fun t => if t.month = snap.month then snap else t) =
          fun t => decide (t.month = snap.month) := by
        funext t
        by_cases hc : t.month = snap.month
        · simp [hc]
        · simp [hc]
      rw [hcomp]
      exact App2.countP_month_eq_one snaps snap.month hnd hm
    · rw [hprepend hm, List.countP_cons_of_pos _ _ (by simp)]
      have hz : snaps.countP (fun t => t.month = snap.month) = 0 := by
        rw [List.countP_eq_zero]
        intro a ha hpa
        simp only [decide_eq_true_eq] at hpa
        exact hm (hpa ▸ List.mem_map_of_mem _ ha)
      rw [hz]

/-- Witness for C1 at a concrete snapshot list: a capture for a fresh month
prepends in the month-keyed variant. -/
theorem C1_snapshot_dedup_witness :
    App2.saveSnapshot [⟨"b", "2025-10", 2, 0, 2, "t1"⟩] ⟨"c", "2025-11", 5, 1, 4, "t3"⟩ =
      [⟨"c", "2025-11", 5, 1, 4, "t3"⟩, ⟨"b", "2025-10", 2, 0, 2, "t1"⟩] :=
  (C1_snapshot_dedup ⟨.GBP, [], [], [], []⟩ "i" "m" "t" _ _).2.2.2.1 (by decide)

/-- C3 counterexample: for an auto-calculated loan at a non-monthly cadence,
the effective monthly EMI is not the calculator's output: with principal 1200,
annual rate 1200 percent, term 1 month and weekly cadence, the calculator
returns 2400 but getLoanMonthlyEmi cadence-normalizes that output and returns
round2(2400 x 52 / 12) = 10400. -/
theorem C3_counterexample :
    App1.getLoanMonthlyEmi
      { id := "L1", name := "T", type := "Other", lender := none,
        currency := .GBP, principal := some 1200, annualRate := some 1200,
        termMonths := some 1, emi := none, paymentFrequency := .weekly,
        outstandingBalance := 0, nextDueDate := none, startDate := none, notes := none,
        autoCalcEmi := true } = 10400 ∧
    (App1.calcEmiMonthly (some 1200) (some 1200) (some 1)).getD 0 = 2400 ∧
    (10400 : ℚ) ≠ 2400 := by
  refine ⟨?_, ?_, by norm_num⟩
  · norm_num [App1.getLoanMonthlyEmi, App1.calcEmiMonthly, App1.monthlyEquivalent,
      App1.round2, mathRound, jsEpsilon]
  · norm_num [App1.calcEmiMonthly, App1.round2, mathRound, jsEpsilon]

/-- C3 (amended): a loan's effective monthly EMI is the auto-or-manual base
(the calculator's output coalesced to 0 when auto-calculation is enabled,
otherwise the manual EMI value coalesced to 0), cadence-normalized to monthly
and then rounded to 2 decimals — the normalization and rounding apply to both
branches. For monthly-cadence auto loans this equals the calculator's output
as the claim states, and a manual EMI of 500 at weekly cadence yields
round2(500 x 52 / 12) = 2166.67. In the second variant a loan contributes the
raw calculator output when auto-calculation is on and the raw manual value
otherwise. -/
theorem C3_effective_emi (loan : App1.Loan) (loan2 : App2.Loan) :
    (loan.autoCalcEmi = true →
      App1.getLoanMonthlyEmi loan =
        App1.round2 (App1.monthlyEquivalent
          (.fin ((App1.calcEmiMonthly loan.principal loan.annualRate loan.termMonths).getD 0))
          loan.paymentFrequency)) ∧
    (loan.autoCalcEmi = true → loan.paymentFrequency = App1.PaymentFrequency.monthly →
      App1.getLoanMonthlyEmi loan =
        (App1.calcEmiMonthly loan.principal loan.annualRate loan.termMonths).getD 0) ∧
    (loan.autoCalcEmi = false →
      App1.getLoanMonthlyEmi loan =
        App1.round2 (App1.monthlyEquivalent (.fin (loan.emi.getD 0)) loan.paymentFrequency)) ∧
    (App1.getLoanMonthlyEmi
      { id := "L2", name := "M", type := "Other", lender := none,
        currency := .GBP, principal := none, annualRate := none, termMonths := none,
        emi := some 500, paymentFrequency := .weekly, outstandingBalance := 0,
        nextDueDate := none, startDate := none, notes := none,
        autoCalcEmi := false } = 216667 / 100) ∧
    (App2.loansMonthlyEmi [loan2] =
      if loan2.autoCalculate then App2.calculateEmi loan2 else loan2.emi.getD 0) := by
  refine ⟨?_, ?_, ?_, ?_, ?_⟩
  · intro hauto
    unfold App1.getLoanMonthlyEmi
    rw [hauto]
    rfl
  · intro hauto hfreq
    unfold App1.getLoanMonthlyEmi
    rw [hauto, hfreq]
    cases hc : App1.calcEmiMonthly loan.principal loan.annualRate loan.termMonths with
    | none => simp [App1.monthlyEquivalent, App1.round2_zero]
    | some q =>
      simp only [Option.getD_some, if_true]
      have hme : App1.monthlyEquivalent (.fin q) .monthly = q := rfl
      rw [hme]
      exact App1.calcEmiMonthly_fixed _ _ _ q hc
  · intro hauto
    unfold App1.getLoanMonthlyEmi
    rw [hauto]
    rfl
  · norm_num [App1.getLoanMonthlyEmi, App1.monthlyEquivalent, App1.round2,
      mathRound, jsEpsilon]
  · simp [App2.loansMonthlyEmi, App2.sum]

/-- Witness for C3 at a concrete auto-calculated monthly-cadence loan, whose
effective EMI is exactly the calculator's output. -/
theorem C3_effective_emi_witness :
    App1.getLoanMonthlyEmi
      { id := "L3", name := "", type := "", lender := none,
        currency := .GBP, principal := some 1200, annualRate := some 1200,
        termMonths := some 1, emi := none, paymentFrequency := .monthly,
        outstandingBalance := 0, nextDueDate := none, startDate := none, notes := none,
        autoCalcEmi := true } =
      (App1.calcEmiMonthly (some 1200) (some 1200) (some 1)).getD 0 := by
  have h := C3_effective_emi
    { id := "L3", name := "", type := "", lender := none,
      currency := .GBP, principal := some 1200, annualRate := some 1200,
      termMonths := some 1, emi := none, paymentFrequency := .monthly,
      outstandingBalance := 0, nextDueDate := none, startDate := none, notes := none,
      autoCalcEmi := true }
    { id := "x", name := "", loanType := "", lender := "", startDate := "",
      principal := 0, annualRate := 0, termMonths := 0, emi := none, nextDueDate := "",
      outstandingBalance := 0, currency := .GBP, notes := none, autoCalculate := false }
  exact h.2.1 rfl rfl

namespace App2

/-- Upserting a row puts that row in the table. -/
theorem mem_upsertOne_self (rows : List ExpenseTransaction) (tx : ExpenseTransaction) :
    tx ∈ upsertOne rows tx := by
  unfold upsertOne
  by_cases hc : rows.any (fun r => r.id = tx.id) = true
  · rw [if_pos hc]
    rw [List.any_eq_true] at hc
    obtain ⟨r, hr, he⟩ := hc
    simp only [decide_eq_true_eq] at he
    exact List.mem_map.mpr ⟨r, hr, by rw [if_pos he]⟩
  · rw [if_neg hc]
    exact List.mem_append_right _ (List.mem_singleton_self _)

/-- Upserting a row with a different identity keeps an existing row. -/
theorem mem_upsertOne_of_ne (rows : List ExpenseTransaction) (tx r : ExpenseTransaction)
    (hr : r ∈ rows) (hne : r.id ≠ tx.id) : r ∈ upsertOne rows tx := by
  unfold upsertOne
  by_cases hc : rows.any (fun r2 => r2.id = tx.id) = true
  · rw [if_pos hc]
    exact List.mem_map.mpr ⟨r, hr, by rw [if_neg hne]⟩
  · rw [if_neg hc]
    exact List.mem_append_left _ hr

/-- A row whose identity is outside the payload survives the whole upsert. -/
theorem mem_foldl_upsert_of_notin (payload : List ExpenseTransaction) :
    ∀ rows r, r ∈ rows → r.id ∉ payload.map (fun t => t.id) →
      r ∈ payload.foldl upsertOne rows := by
  induction payload with
  | nil =>
    intro rows r hr _
    exact hr
  | cons tx rest ih =>
    intro rows r hr hnid
    rw [List.map_cons, List.mem_cons] at hnid
    push_neg at hnid
    rw [List.foldl_cons]
    exact ih (upsertOne rows tx) r (mem_upsertOne_of_ne rows tx r hr hnid.1) hnid.2

/-- When the payload identities are distinct, every payload row is in the
table after the upsert. -/
theorem mem_foldl_upsert_self (payload : List ExpenseTransaction) :
    ∀ rows, (payload.map (fun t => t.id)).Nodup →
      ∀ tx ∈ payload, tx ∈ payload.foldl upsertOne rows := by
  induction payload with
  | nil =>
    intro rows _ tx htx
    simp at htx
  | cons t rest ih =>
    intro rows hnd tx htx
    rw [List.map_cons, List.nodup_cons] at hnd
    obtain ⟨hnotin, hnd2⟩ := hnd
    rw [List.foldl_cons]
    rcases List.mem_cons.mp htx with rfl | hmem
    · exact mem_foldl_upsert_of_notin rest (upsertOne rows tx) tx
        (mem_upsertOne_self rows tx) hnotin
    · exact ih (upsertOne rows t) hnd2 tx hmem

/-- Every row of the upserted table is a payload row or an original row whose
identity is outside the payload. -/
theorem mem_foldl_upsert (payload : List ExpenseTransaction) :
    ∀ rows r, r ∈ payload.foldl upsertOne rows →
      r ∈ payload ∨ (r ∈ rows ∧ r.id ∉ payload.map (fun t => t.id)) := by
  induction payload with
  | nil =>
    intro rows r hr
    exact Or.inr ⟨hr, by simp⟩
  | cons t rest ih =>
    intro rows r hr
    rw [List.foldl_cons] at hr
    rcases ih (upsertOne rows t) r hr with hcase | ⟨hmem, hnid⟩
    · exact Or.inl (List.mem_cons_of_mem t hcase)
    · unfold upsertOne at hmem
      by_cases hc : rows.any (fun r2 => r2.id = t.id) = true
      · rw [if_pos hc] at hmem
        obtain ⟨r0, hr0, he⟩ := List.mem_map.mp hmem
        by_cases hc0 : r0.id = t.id
        · rw [if_pos hc0] at he
          apply Or.inl
          rw [← he]
          exact List.mem_cons_self t rest
        · rw [if_neg hc0] at he
          subst he
          refine Or.inr ⟨hr0, ?_⟩
          rw [List.map_cons, List.mem_cons]
          push_neg
          exact ⟨hc0, hnid⟩
      · rw [if_neg hc] at hmem
        rcases List.mem_append.mp hmem with hmem2 | hmem2
        · refine Or.inr ⟨hmem2, ?_⟩
          rw [List.map_cons, List.mem_cons]
          push_neg
          refine ⟨?_, hnid⟩
          intro heq
          apply hc
          rw [List.any_eq_true]
          exact ⟨r, hmem2, by simp [heq]⟩
        · rw [List.mem_singleton] at hmem2
          apply Or.inl
          rw [hmem2]
          exact List.mem_cons_self t rest

end App2

/-- C8: with distinct local transaction identities, the remote operations
issued by the transaction sync make the identity's remote rows exactly mirror
the local set from any prior remote contents; an empty local set issues
exactly the delete-all operation (never an upsert of an empty set), and a
non-empty local set issues the full-set upsert followed by the
prune-by-exclusion delete. -/
theorem C8_transaction_sync_mirror (items rows : List App2.ExpenseTransaction)
    (hids : (items.map (fun tx => tx.id)).Nodup) :
    (∀ r, r ∈ App2.applyOps rows (App2.saveTransactionsToSupabase items) ↔ r ∈ items) ∧
    (items = [] → App2.saveTransactionsToSupabase items =
      [App2.RemoteOp.deleteAllTransactions]) ∧
    (items ≠ [] → App2.saveTransactionsToSupabase items =
      [App2.RemoteOp.upsertTransactions items,
       App2.RemoteOp.deleteTransactionsNotIn (items.map (fun tx => tx.id))]) := by
  refine ⟨?_, ?_, ?_⟩
  · intro r
    by_cases hempty : items = []
    · subst hempty
      simp [App2.saveTransactionsToSupabase, App2.applyOps, App2.applyOp]
    · have hlen : ¬(items.length = 0) := fun h0 => hempty (List.length_eq_zero.mp h0)
      unfold App2.saveTransactionsToSupabase
      rw [if_neg hlen]
      unfold App2.applyOps
      rw [List.foldl_cons, List.foldl_cons, List.foldl_nil]
      unfold App2.applyOp
      rw [List.mem_filter]
      constructor
      · rintro ⟨hrmem, hrid⟩
        rcases App2.mem_foldl_upsert items rows r hrmem with h1 | ⟨_, h2⟩
        · exact h1
        · simp only [decide_eq_true_eq] at hrid
          exact absurd hrid h2
      · intro hrmem
        refine ⟨App2.mem_foldl_upsert_self items rows hids r hrmem, ?_⟩
        simp only [decide_eq_true_eq]
        exact List.mem_map_of_mem _ hrmem
  · intro h
    subst h
    rfl
  · intro h
    have hlen : ¬(items.length = 0) := fun h0 => h (List.length_eq_zero.mp h0)
    unfold App2.saveTransactionsToSupabase
    rw [if_neg hlen]

/-- Witness for C8 at a one-transaction local set against a one-row remote
table holding a different identity. -/
theorem C8_transaction_sync_mirror_witness :
    (⟨"t1", "d", "c", "x", 5⟩ : App2.ExpenseTransaction) ∈
      App2.applyOps [⟨"t2", "d2", "c2", "y", 7⟩]
        (App2.saveTransactionsToSupabase [⟨"t1", "d", "c", "x", 5⟩]) := by
  have h := C8_transaction_sync_mirror [⟨"t1", "d", "c", "x", 5⟩]
    [⟨"t2", "d2", "c2", "y", 7⟩] (by decide)
  exact (h.1 _).mpr (by decide)

/-- Witness for C10 at a concrete one-loan list whose entry is replaced. -/
theorem C10_loan_identity_unique_witness :
    ((App1.upsertLoan
        [{ id := "a", name := "", type := "", lender := none, currency := .GBP,
           principal := none, annualRate := none, termMonths := none, emi := none,
           paymentFrequency := .monthly, outstandingBalance := 0, nextDueDate := none,
           startDate := none, notes := none, autoCalcEmi := false }]
        { id := "a", name := "n", type := "", lender := none, currency := .GBP,
          principal := none, annualRate := none, termMonths := none, emi := some 5,
          paymentFrequency := .monthly, outstandingBalance := 1, nextDueDate := none,
          startDate := none, notes := none, autoCalcEmi := false }).map
      (fun l => l.id)).Nodup :=
  (C10_loan_identity_unique _ _ "z" (by decide)).1

end ExpApp
